import Mathlib

set_option maxHeartbeats 1000000
set_option maxRecDepth 4000

/-!
Verification development for the `deep-research-agent` repository.

The repository registers plain Python functions as workflow handlers
(`src/deep_research_agent/functions.py`) and declares two flow definitions
(`simple_sequence`, `metrics_with_signal`).  The handlers and flow
definitions below are shallow embeddings of that source file.  The Flow
Execution Core (scheduler, template resolver, step executor, run state
machine) is not part of the repository's sources; those definitions are
modelled from the specification and are marked as such in their doc
comments.

Python values are modelled by the `Value` type; Python floats are modelled
as rationals (all arithmetic performed by the repository's handlers on the
workloads under study is exact).
-/

namespace FlowCore

/-- JSON-like values exchanged between the engine and handlers.  Python
dictionaries are modelled as insertion-ordered association lists, Python
floats as rationals. -/
inductive Value : Type
  | vnull : Value
  | vbool : Bool → Value
  | vint : Int → Value
  | vnum : Rat → Value
  | vstr : String → Value
  | vlist : List Value → Value
  | vdict : List (String × Value) → Value

/-- Association-list lookup, modelling Python dictionary access (first
matching key wins; the dictionaries built by this development have no
duplicate keys). -/
def alookup (kvs : List (String × Value)) (k : String) : Option Value :=
  match kvs with
  | [] => none
  | (k2, v) :: rest => if k2 = k then some v else alookup rest k

/-- Python truth test for membership of a string in a list of values:
`"x" in rules` compares the string against each element with `==`; only a
string element can compare equal. -/
def ruleListContains (rules : List Value) (r : String) : Bool :=
  rules.any fun v =>
    match v with
    | Value.vstr s => s = r
    | _ => false

/-- Python `isinstance(x, str)`. -/
def isStrV : Value → Bool
  | Value.vstr _ => true
  | _ => false

/-- Python `isinstance(x, (int, float))`; note that Python `bool` is a
subclass of `int`, so booleans count as numeric. -/
def isNumericV : Value → Bool
  | Value.vint _ => true
  | Value.vnum _ => true
  | Value.vbool _ => true
  | _ => false

/-- Default validation rules of `validate_input`
(src/deep_research_agent/functions.py line 66). -/
def defaultRules : List Value := [Value.vstr "required_fields", Value.vstr "data_types"]

/-- Errors collected by `validate_input` from the required_fields rule
(src/deep_research_agent/functions.py lines 73-77). -/
def vErrorsReq (input_data : List (String × Value)) (rules : List Value) : List Value :=
  if ruleListContains rules "required_fields" then
    (["id", "type"].filter fun f => (alookup input_data f).isNone).map
      fun f => Value.vstr ("Missing required field: " ++ f)
  else []

/-- Errors collected by `validate_input` from the data_types rule
(src/deep_research_agent/functions.py lines 80-82). -/
def vErrorsTy (input_data : List (String × Value)) (rules : List Value) : List Value :=
  if ruleListContains rules "data_types" then
    match alookup input_data "id" with
    | some v => if isStrV v then [] else [Value.vstr "Field \x27id\x27 must be a string"]
    | none => []
  else []

/-- All errors collected by `validate_input`, in append order. -/
def vErrors (input_data : List (String × Value)) (rules : List Value) : List Value :=
  vErrorsReq input_data rules ++ vErrorsTy input_data rules

/-- Warnings collected by `validate_input` from the data_types rule
(src/deep_research_agent/functions.py lines 83-84). -/
def vWarnings (input_data : List (String × Value)) (rules : List Value) : List Value :=
  if ruleListContains rules "data_types" then
    match alookup input_data "value" with
    | some v => if isNumericV v then [] else [Value.vstr "Field \x27value\x27 should be numeric"]
    | none => []
  else []

/-- Shallow embedding of `validate_input`
(src/deep_research_agent/functions.py lines 49-97).  The function does not
use its context argument, which is therefore omitted.  A `none` second
argument models Python `rules=None`. -/
def validate_input (input_data : List (String × Value)) (rules? : Option (List Value)) : Value :=
  let rules := rules?.getD defaultRules
  let errors := vErrors input_data rules
  Value.vdict
    [ ("valid", Value.vbool errors.isEmpty)
    , ("errors", Value.vlist errors)
    , ("warnings", Value.vlist (vWarnings input_data rules))
    , ("input_data", Value.vdict input_data)
    , ("rules_applied", Value.vlist rules) ]

/-- Digit string to natural number. -/
def digitsToNat (cs : List Char) : Nat :=
  cs.foldl (fun a c => a * 10 + (c.toNat - 48)) 0

/-- Simplified model of Python `float(s)` on strings: optional sign, then a
decimal literal (`"12"`, `"3.5"`, `".5"`, `"2."`).  Exponents and special
values are not modelled; no claim depends on them. -/
def parseFloat (s : String) : Option Rat :=
  let t := s.trim
  let sign : Rat := if t.startsWith "-" then -1 else 1
  let body := if t.startsWith "-" || t.startsWith "+" then t.drop 1 else t
  match body.splitOn "." with
  | [ip] =>
      if 0 < ip.length && ip.toList.all Char.isDigit then
        some (sign * (digitsToNat ip.toList : Rat))
      else none
  | [ip, fp] =>
      if (0 < ip.length || 0 < fp.length) && ip.toList.all Char.isDigit
          && fp.toList.all Char.isDigit then
        some (sign * ((digitsToNat ip.toList : Rat)
          + (digitsToNat fp.toList : Rat) / ((10 : Rat) ^ fp.length)))
      else none
  | _ => none

/-- Python `float(x)`: numbers and booleans convert, strings are parsed,
everything else raises (modelled as `none`). -/
def pyFloat : Value → Option Rat
  | Value.vint n => some (n : Rat)
  | Value.vnum q => some q
  | Value.vbool b => some (if b then 1 else 0)
  | Value.vstr s => parseFloat s
  | _ => none

/-- Sum of a list of rationals (Python `sum`). -/
def listSum (xs : List Rat) : Rat := xs.foldl (fun a b => a + b) 0

/-- Minimum of a list of rationals (Python `min`; total here, the caller
guarantees nonemptiness). -/
def listMin : List Rat → Rat
  | [] => 0
  | h :: t => t.foldl min h

/-- Maximum of a list of rationals (Python `max`; total here, the caller
guarantees nonemptiness). -/
def listMax : List Rat → Rat
  | [] => 0
  | h :: t => t.foldl max h

/-- Shallow embedding of `calculate_metrics`
(src/deep_research_agent/functions.py lines 100-156).  The Python body
converts every data point with `float` inside a `try`; a conversion
failure is modelled by `List.mapM pyFloat` returning `none`.  The exact
text of `str(e)` in the `except` branch is abstracted to a fixed non-empty
message. -/
def calculate_metrics (data_points : List Value) (metric_type : String) : Value :=
  if data_points.isEmpty then
    Value.vdict
      [ ("metric_type", Value.vstr metric_type)
      , ("result", Value.vnull)
      , ("error", Value.vstr "No data points provided") ]
  else
    match data_points.mapM pyFloat with
    | none =>
        Value.vdict
          [ ("metric_type", Value.vstr metric_type)
          , ("result", Value.vnull)
          , ("error", Value.vstr "Invalid data: could not convert value to float") ]
    | some numbers =>
        if metric_type = "average" then
          Value.vdict
            [ ("metric_type", Value.vstr metric_type)
            , ("result", Value.vnum (listSum numbers / (numbers.length : Rat)))
            , ("data_points_count", Value.vint numbers.length)
            , ("input_data", Value.vlist data_points) ]
        else if metric_type = "sum" then
          Value.vdict
            [ ("metric_type", Value.vstr metric_type)
            , ("result", Value.vnum (listSum numbers))
            , ("data_points_count", Value.vint numbers.length)
            , ("input_data", Value.vlist data_points) ]
        else if metric_type = "min" then
          Value.vdict
            [ ("metric_type", Value.vstr metric_type)
            , ("result", Value.vnum (listMin numbers))
            , ("data_points_count", Value.vint numbers.length)
            , ("input_data", Value.vlist data_points) ]
        else if metric_type = "max" then
          Value.vdict
            [ ("metric_type", Value.vstr metric_type)
            , ("result", Value.vnum (listMax numbers))
            , ("data_points_count", Value.vint numbers.length)
            , ("input_data", Value.vlist data_points) ]
        else
          Value.vdict
            [ ("metric_type", Value.vstr metric_type)
            , ("result", Value.vnull)
            , ("error", Value.vstr ("Unknown metric type: " ++ metric_type)) ]

/-- Python `str(x)` rendering, used for f-string interpolation and for
substituting a non-string binding into the middle of a template string.
The float rendering is approximate (Lean shows `3` where Python shows
`3.0`); no claim depends on it. -/
def renderValue : Value → String
  | Value.vnull => "None"
  | Value.vbool true => "True"
  | Value.vbool false => "False"
  | Value.vint n => toString n
  | Value.vnum q => toString q
  | Value.vstr s => s
  | Value.vlist xs => "[" ++ renderVList xs ++ "]"
  | Value.vdict kvs => "\x7b" ++ renderVDict kvs ++ "\x7d"
where
  renderVList : List Value → String
    | [] => ""
    | [x] => renderValue x
    | x :: y :: rest => renderValue x ++ ", " ++ renderVList (y :: rest)
  renderVDict : List (String × Value) → String
    | [] => ""
    | [(k, v)] => k ++ ": " ++ renderValue v
    | (k, v) :: p :: rest => k ++ ": " ++ renderValue v ++ ", " ++ renderVDict (p :: rest)

/-- Shallow embedding of `process_task`
(src/deep_research_agent/functions.py lines 21-46).  `ctxStr` models
`str(ctx)`; an empty string models a falsy context. -/
def process_task (ctxStr : String) (task_id : Value) (task_data : Value) : Value :=
  Value.vdict
    [ ("task_id", task_id)
    , ("original_data", task_data)
    , ("status", Value.vstr "completed")
    , ("processed_at", Value.vstr (if ctxStr.isEmpty then "unknown_context" else ctxStr))
    , ("message", Value.vstr ("Successfully processed task " ++ renderValue task_id)) ]

/-- Shallow embedding of `health_check`
(src/deep_research_agent/functions.py lines 159-175). -/
def health_check (ctxStr : String) : Value :=
  Value.vdict
    [ ("status", Value.vstr "healthy")
    , ("service", Value.vstr "simple-workflow")
    , ("timestamp", Value.vstr (if ctxStr.isEmpty then "unknown_context" else ctxStr))
    , ("message", Value.vstr "Service is running normally") ]

/-! ## Template resolver (Flow Execution Core) -/

/-- Opening template delimiter, two left braces. -/
def obrace : String := "\x7b\x7b"

/-- Closing template delimiter, two right braces. -/
def cbrace : String := "\x7d\x7d"

/-- Left brace character. -/
def lbraceChar : Char := Char.ofNat 123

/-- Right brace character. -/
def rbraceChar : Char := Char.ofNat 125

/-- Modelled from the spec (section 4.2): recognises a string that is
exactly one template token and returns the enclosed identifier. -/
def isExactTemplate (s : String) : Option String :=
  if s.startsWith obrace && s.endsWith cbrace && 4 ≤ s.length then
    let inner := ((s.drop 2).dropRight 2)
    if inner.toList.any fun c => c = lbraceChar || c = rbraceChar then none
    else some inner
  else none

/-- Modelled from the spec (section 4.2): follows a dotted path into nested
output mappings. -/
def getPath : Value → List String → Option Value
  | v, [] => some v
  | Value.vdict d, f :: rest =>
      match alookup d f with
      | some v => getPath v rest
      | none => none
  | _, _ :: _ => none

/-- Modelled from the spec (section 4.2): looks an identifier up in the
bindings; a dotted identifier `stepName.fieldName` reaches into a prior
step's output mapping. -/
def lookupIdent (bindings : List (String × Value)) (ident : String) : Option Value :=
  match ident.splitOn "." with
  | [] => none
  | [k] => alookup bindings k
  | k :: fields =>
      match alookup bindings k with
      | some v => getPath v fields
      | none => none

/-- Modelled from the spec (section 4.2): renders one identifier for
substitution into the middle of a larger string; a missing binding is the
`UnresolvedTemplate` error, carried as the identifier. -/
def renderBinding (bindings : List (String × Value)) (ident : String) : Except String String :=
  match lookupIdent bindings ident with
  | some v => Except.ok (renderValue v)
  | none => Except.error ident

/-- Modelled from the spec (section 4.2): interpolation of the segments
that follow each opening delimiter of a string containing templates.  A
segment without a closing delimiter is kept literally. -/
def interpSegs (bindings : List (String × Value)) : List String → Except String String
  | [] => Except.ok ""
  | seg :: rest =>
      match seg.splitOn cbrace with
      | [] => Except.ok ""
      | [only] =>
          match interpSegs bindings rest with
          | Except.ok t => Except.ok (obrace ++ only ++ t)
          | Except.error e => Except.error e
      | ident :: tailPart :: tailRest =>
          match renderBinding bindings ident with
          | Except.error e => Except.error e
          | Except.ok r =>
              match interpSegs bindings rest with
              | Except.ok t =>
                  Except.ok (r ++ String.intercalate cbrace (tailPart :: tailRest) ++ t)
              | Except.error e => Except.error e

/-- Modelled from the spec (section 4.2): replaces every template token
contained in a string, rendering each bound value with `renderValue`. -/
def interpolate (bindings : List (String × Value)) (s : String) : Except String String :=
  match s.splitOn obrace with
  | [] => Except.ok s
  | first :: rest =>
      match interpSegs bindings rest with
      | Except.ok t => Except.ok (first ++ t)
      | Except.error e => Except.error e

mutual

/-- Modelled from the spec (section 4.2): `resolve(value, bindings)` walks
an input value and replaces any string exactly matching or containing a
template token with the looked-up binding; non-string scalars pass through
unchanged; a missing binding fails with the unresolved identifier. -/
def resolve (bindings : List (String × Value)) : Value → Except String Value
  | Value.vstr s =>
      match isExactTemplate s with
      | some ident =>
          match lookupIdent bindings ident with
          | some v => Except.ok v
          | none => Except.error ident
      | none =>
          if 2 ≤ (s.splitOn obrace).length then
            match interpolate bindings s with
            | Except.ok t => Except.ok (Value.vstr t)
            | Except.error e => Except.error e
          else Except.ok (Value.vstr s)
  | Value.vlist xs =>
      match resolveList bindings xs with
      | Except.ok ys => Except.ok (Value.vlist ys)
      | Except.error e => Except.error e
  | Value.vdict kvs =>
      match resolveDict bindings kvs with
      | Except.ok ys => Except.ok (Value.vdict ys)
      | Except.error e => Except.error e
  | v => Except.ok v

/-- Resolver recursion over list elements, in order. -/
def resolveList (bindings : List (String × Value)) : List Value → Except String (List Value)
  | [] => Except.ok []
  | x :: xs =>
      match resolve bindings x with
      | Except.error e => Except.error e
      | Except.ok y =>
          match resolveList bindings xs with
          | Except.ok ys => Except.ok (y :: ys)
          | Except.error e => Except.error e

/-- Resolver recursion over mapping entries, in order, keys untouched. -/
def resolveDict (bindings : List (String × Value)) :
    List (String × Value) → Except String (List (String × Value))
  | [] => Except.ok []
  | (k, v) :: rest =>
      match resolve bindings v with
      | Except.error e => Except.error e
      | Except.ok w =>
          match resolveDict bindings rest with
          | Except.ok ws => Except.ok ((k, w) :: ws)
          | Except.error e => Except.error e

end

/-! ## Flow definition model -/

/-- Per-step status (spec section 3, StepState). -/
inductive StepStatus : Type
  | Pending | Ready | Running | Suspended | Succeeded | Failed | Cancelled
deriving DecidableEq

/-- Error causes recorded on a failed step (spec section 7). -/
inductive ErrCause : Type
  | handlerFailure (msg : String)
  | unresolvedTemplate (ident : String)
  | upstreamFailure (stepName : String)
deriving DecidableEq

/-- Correlation identifier for resuming a suspended step (spec section 3). -/
inductive SuspendToken : Type
  | signal (name : String)
  | timer (key : String)
deriving DecidableEq

/-- State of one step inside a run (spec section 3). -/
structure StepState : Type where
  status : StepStatus
  output : Option Value
  error : Option ErrCause
  suspend_token : Option SuspendToken

/-- Fresh step state at run creation. -/
def initStepState : StepState :=
  { status := StepStatus.Pending, output := none, error := none, suspend_token := none }

/-- Step variants (spec section 3): task, wait-signal, wait-timer. -/
inductive Step : Type
  | task (name service_name handler_name : String)
      (dependencies : List String) (input_data : Value)
  | waitSignal (name signal_name : String) (dependencies : List String)
  | waitTimer (name timer_key : String) (dependencies : List String) (delay_ms : Nat)

/-- Name of a step. -/
def Step.name : Step → String
  | Step.task n _ _ _ _ => n
  | Step.waitSignal n _ _ => n
  | Step.waitTimer n _ _ _ => n

/-- Declared dependencies of a step. -/
def Step.dependencies : Step → List String
  | Step.task _ _ _ d _ => d
  | Step.waitSignal _ _ d => d
  | Step.waitTimer _ _ d _ => d

/-- Immutable flow definition (spec section 3). -/
structure FlowDefinition : Type where
  name : String
  steps : List Step

/-- Step names of a definition, in declaration order. -/
def namesOf (fd : FlowDefinition) : List String := fd.steps.map Step.name

/-- Overall status of a run (spec section 3). -/
inductive RunStatus : Type
  | Running | Suspended | Succeeded | Failed | Cancelled
deriving DecidableEq

/-- One execution instance of a flow definition.  `bindings` holds the
trigger parameters followed by each succeeded step's output keyed by step
name; `trace` records every handler invocation as
(step name, handler name, resolved input). -/
structure RunState : Type where
  fd : FlowDefinition
  bindings : List (String × Value)
  states : String → StepState
  trace : List (String × String × Value)
  status : RunStatus

/-- Pointwise update of the step-state map. -/
def upd (f : String → StepState) (n : String) (v : StepState) : String → StepState :=
  fun m => if m = n then v else f m

/-! ## Handler registry -/

/-- Context string passed to handlers; the engine treats the context as
opaque and the handlers only ever render it. -/
def ctx0 : String := "ctx"

/-- Modelled from the spec (section 6, Handler Registry contract): the
registry invokes the repository's functions by keyword arguments drawn
from the resolved input mapping; a missing or ill-typed required argument
is a handler failure. -/
def invokeHandler (service_name handler_name ctxStr : String) (input : Value) :
    Except String Value :=
  if service_name = "simple-workflow" then
    match handler_name, input with
    | "validate_input", Value.vdict kvs =>
        (match alookup kvs "input_data" with
        | some (Value.vdict d) =>
            let rules? : Option (List Value) :=
              match alookup kvs "rules" with
              | some (Value.vlist rs) => some rs
              | _ => none
            Except.ok (validate_input d rules?)
        | some _ => Except.error "validate_input: input_data must be a mapping"
        | none => Except.error "validate_input: missing required argument input_data")
    | "process_task", Value.vdict kvs =>
        (match alookup kvs "task_id", alookup kvs "task_data" with
        | some tid, some td => Except.ok (process_task ctxStr tid td)
        | _, _ => Except.error "process_task: missing required argument")
    | "calculate_metrics", Value.vdict kvs =>
        (match alookup kvs "data_points" with
        | some (Value.vlist dps) =>
            let mt : String :=
              match alookup kvs "metric_type" with
              | some (Value.vstr s) => s
              | some v => renderValue v
              | none => "average"
            Except.ok (calculate_metrics dps mt)
        | some _ => Except.error "calculate_metrics: data_points must be a list"
        | none => Except.error "calculate_metrics: missing required argument data_points")
    | "health_check", _ => Except.ok (health_check ctxStr)
    | _, _ => Except.error ("unknown handler: " ++ handler_name)
  else Except.error ("unknown service: " ++ service_name)

/-! ## Scheduler and engine (Flow Execution Core) -/

/-- Modelled from the spec (section 4.3): `ready_steps` returns every step
whose status is Pending and whose entire dependency set has status
Succeeded, in declaration order. -/
def ready_steps (fd : FlowDefinition) (states : String → StepState) : List Step :=
  fd.steps.filter fun s =>
    ((states s.name).status == StepStatus.Pending)
      && s.dependencies.all fun d => (states d).status == StepStatus.Succeeded

/-- True when some declared dependency of `s` has failed. -/
def depFailed (states : String → StepState) (s : Step) : Bool :=
  s.dependencies.any fun d => (states d).status == StepStatus.Failed

/-- True when every declared dependency of `s` has succeeded. -/
def depsSucceeded (states : String → StepState) (s : Step) : Bool :=
  s.dependencies.all fun d => (states d).status == StepStatus.Succeeded

/-- A step the engine can act on now: still Pending, and either doomed by a
failed dependency or ready to run. -/
def processableP (states : String → StepState) (s : Step) : Bool :=
  ((states s.name).status == StepStatus.Pending)
    && (depFailed states s || depsSucceeded states s)

/-- First processable step in declaration order. -/
def findProcessable (st : RunState) : Option Step :=
  st.fd.steps.find? (processableP st.states)

/-- Modelled from the spec (section 4.3): the step named by the
`UpstreamFailure` cause.  The failure of an original failed step is
propagated; a dependent of an already-propagated failure inherits the
original step's name. -/
def failOrigin (states : String → StepState) (s : Step) : String :=
  match s.dependencies.find? fun d => (states d).status == StepStatus.Failed with
  | some d =>
      (match (states d).error with
      | some (ErrCause.upstreamFailure r) => r
      | _ => d)
  | none => s.name

/-- Outcome of acting on one processable step: its new state, extra
bindings, and extra trace entries. -/
def stepOutcome (bindings : List (String × Value)) (states : String → StepState) (s : Step) :
    StepState × List (String × Value) × List (String × String × Value) :=
  if depFailed states s then
    ( { status := StepStatus.Failed, output := none
      , error := some (ErrCause.upstreamFailure (failOrigin states s)), suspend_token := none }
    , [], [] )
  else
    match s with
    | Step.task name svc h _deps input =>
        (match resolve bindings input with
        | Except.error ident =>
            ( { status := StepStatus.Failed, output := none
              , error := some (ErrCause.unresolvedTemplate ident), suspend_token := none }
            , [], [] )
        | Except.ok rin =>
            match invokeHandler svc h ctx0 rin with
            | Except.ok out =>
                ( { status := StepStatus.Succeeded, output := some out
                  , error := none, suspend_token := none }
                , [(name, out)], [(name, h, rin)] )
            | Except.error m =>
                ( { status := StepStatus.Failed, output := none
                  , error := some (ErrCause.handlerFailure m), suspend_token := none }
                , [], [(name, h, rin)] ))
    | Step.waitSignal _ sig _ =>
        ( { status := StepStatus.Suspended, output := none
          , error := none, suspend_token := some (SuspendToken.signal sig) }
        , [], [] )
    | Step.waitTimer _ key _ _ =>
        ( { status := StepStatus.Suspended, output := none
          , error := none, suspend_token := some (SuspendToken.timer key) }
        , [], [] )

/-- Modelled from the spec (sections 4.4 and 4.6): act on one processable
step, recording its outcome on the run. -/
def processStep (s : Step) (st : RunState) : RunState :=
  let o := stepOutcome st.bindings st.states s
  { st with states := upd st.states s.name o.1
          , bindings := st.bindings ++ o.2.1
          , trace := st.trace ++ o.2.2 }

/-- Modelled from the spec (section 4.6): the engine loop, driven with
explicit fuel; each iteration acts on the first processable step. -/
def advance (fuel : Nat) (st : RunState) : RunState :=
  match fuel with
  | 0 => st
  | Nat.succ n =>
      match findProcessable st with
      | none => st
      | some s => advance n (processStep s st)

/-- Modelled from the spec (section 4.5): the authoritative run status,
recomputed once progress is blocked. -/
def computeRunStatus (st : RunState) : RunStatus :=
  if st.fd.steps.all (fun s => (st.states s.name).status == StepStatus.Succeeded) then
    RunStatus.Succeeded
  else if st.fd.steps.any (fun s => (st.states s.name).status == StepStatus.Failed) then
    RunStatus.Failed
  else if st.fd.steps.any (fun s => (st.states s.name).status == StepStatus.Suspended) then
    RunStatus.Suspended
  else RunStatus.Running

/-- Modelled from the spec (section 4.6): run the engine loop to
quiescence (the number of steps bounds the possible progress) and settle
the run status. -/
def settle (st : RunState) : RunState :=
  let st2 := advance st.fd.steps.length st
  { st2 with status := computeRunStatus st2 }

/-- Modelled from the spec (section 6, Trigger interface): create a run
from a definition and trigger parameters and drive it until it blocks. -/
def startRun (fd : FlowDefinition) (params : List (String × Value)) : RunState :=
  settle
    { fd := fd, bindings := params, states := fun _ => initStepState
    , trace := [], status := RunStatus.Running }

/-- First step suspended on the given token, in declaration order. -/
def findSuspByToken (st : RunState) (t : SuspendToken) : Option Step :=
  st.fd.steps.find? fun s =>
    ((st.states s.name).status == StepStatus.Suspended)
      && ((st.states s.name).suspend_token == some t)

/-- Modelled from the spec (sections 4.4 and 6): deliver an external
signal; a delivery matching no suspended step's token is a no-op. -/
def deliverSignal (sig : String) (payload : Value) (st : RunState) : RunState :=
  match findSuspByToken st (SuspendToken.signal sig) with
  | none => st
  | some s =>
      settle
        { st with
          states := upd st.states s.name
            { status := StepStatus.Succeeded, output := some payload
            , error := none, suspend_token := none }
        , bindings := st.bindings ++ [(s.name, payload)] }

/-- Modelled from the spec (sections 4.4 and 6): deliver a timer firing; a
delivery matching no suspended step's token (in particular a duplicate
delivery for an already-Succeeded timer step) is a no-op. -/
def deliverTimer (key : String) (st : RunState) : RunState :=
  match findSuspByToken st (SuspendToken.timer key) with
  | none => st
  | some s =>
      settle
        { st with
          states := upd st.states s.name
            { status := StepStatus.Succeeded, output := some (Value.vdict [])
            , error := none, suspend_token := none }
        , bindings := st.bindings ++ [(s.name, Value.vdict [])] }

/-! ## Flow definitions of the repository -/

/-- Shallow embedding of `build_simple_sequence_flow`
(src/deep_research_agent/functions.py lines 178-203). -/
def simple_sequence : FlowDefinition :=
  { name := "simple_sequence"
  , steps :=
    [ Step.task "validate" "simple-workflow" "validate_input" []
        (Value.vdict
          [ ("input_data", Value.vdict
              [ ("id", Value.vstr "\x7b\x7bid\x7d\x7d")
              , ("type", Value.vstr "\x7b\x7btype\x7d\x7d") ]) ])
    , Step.task "process" "simple-workflow" "process_task" ["validate"]
        (Value.vdict
          [ ("task_id", Value.vstr "\x7b\x7btask_id\x7d\x7d")
          , ("task_data", Value.vdict [("source", Value.vstr "workflow")]) ]) ] }

/-- Shallow embedding of `build_metrics_signal_flow`
(src/deep_research_agent/functions.py lines 206-233). -/
def metrics_with_signal : FlowDefinition :=
  { name := "metrics_with_signal"
  , steps :=
    [ Step.waitSignal "await_ready" "metrics_ready" []
    , Step.task "calculate" "simple-workflow" "calculate_metrics" ["await_ready"]
        (Value.vdict
          [ ("data_points", Value.vlist
              [ Value.vint 1, Value.vint 2, Value.vint 3, Value.vint 4, Value.vint 5 ])
          , ("metric_type", Value.vstr "average") ])
    , Step.waitTimer "cooldown" "metrics_cooldown" ["calculate"] 2000 ] }

/-! ## Registration (Flow Definition Model) -/

/-- Step names are pairwise distinct. -/
def uniqNames (l : List String) : Bool := decide l.Nodup

/-- Every dependency reference resolves to a step name of the same
definition. -/
def depsKnown (fd : FlowDefinition) : Bool :=
  fd.steps.all fun s => s.dependencies.all fun d => (namesOf fd).contains d

/-- Fuel-driven topological pass: repeatedly collect the steps all of
whose dependencies are already collected; the definition is acyclic
exactly when every step ends up collected. -/
def topoAux (fd : FlowDefinition) : Nat → List String → Bool
  | 0, done => fd.steps.all fun s => done.contains s.name
  | Nat.succ n, done =>
      let ready := fd.steps.filter fun s =>
        !done.contains s.name && s.dependencies.all fun d => done.contains d
      if ready.isEmpty then fd.steps.all fun s => done.contains s.name
      else topoAux fd n (done ++ ready.map Step.name)

/-- Modelled from the spec (section 4.1): cycle detection by topological
sort. -/
def acyclic (fd : FlowDefinition) : Bool := topoAux fd fd.steps.length []

/-- Modelled from the spec (sections 3 and 4.1): the definition invariant
checked at registration. -/
def validDef (fd : FlowDefinition) : Bool :=
  uniqNames (namesOf fd) && depsKnown fd && acyclic fd

/-- Registration errors (spec section 4.1). -/
inductive RegError : Type
  | DuplicateFlowName | InvalidGraph
deriving DecidableEq

/-- Modelled from the spec (section 4.1): `register` rejects duplicate
names and invalid graphs, otherwise appends the definition. -/
def register (reg : List (String × FlowDefinition)) (fd : FlowDefinition) :
    Except RegError (List (String × FlowDefinition)) :=
  if (reg.map Prod.fst).contains fd.name then Except.error RegError.DuplicateFlowName
  else if validDef fd then Except.ok (reg ++ [(fd.name, fd)])
  else Except.error RegError.InvalidGraph

/-! ## Concrete scenarios -/

/-- Trigger parameters of the simple_sequence example scenario. -/
def simpleParams : List (String × Value) :=
  [("id", Value.vstr "x1"), ("type", Value.vstr "order"), ("task_id", Value.vstr "t1")]

/-- The simple_sequence run triggered with the example parameters. -/
def simpleRun : RunState := startRun simple_sequence simpleParams

/-- The metrics_with_signal run immediately after its trigger. -/
def metricsRunStart : RunState := startRun metrics_with_signal []

/-- Example payload for the metrics_ready signal. -/
def sigPayload : Value := Value.vdict [("ok", Value.vbool true)]

/-- The metrics_with_signal run after the metrics_ready signal arrives. -/
def metricsAfterSignal : RunState := deliverSignal "metrics_ready" sigPayload metricsRunStart

/-- The metrics_with_signal run after the cooldown timer fires. -/
def metricsDone : RunState := deliverTimer "metrics_cooldown" metricsAfterSignal

/-- Field of a mapping value; `none` on non-mappings. -/
def dictField (v : Value) (field : String) : Option Value :=
  match v with
  | Value.vdict kvs => alookup kvs field
  | _ => none

/-- Field of a step's recorded output mapping. -/
def outField (st : RunState) (step field : String) : Option Value :=
  match (st.states step).output with
  | some (Value.vdict d) => alookup d field
  | _ => none

/-- Three-step chain used by the failure-propagation example: A fails (its
input references a binding that the empty trigger parameters cannot
provide), B depends on A, C depends on B. -/
def chain_abc : FlowDefinition :=
  { name := "chain_abc"
  , steps :=
    [ Step.task "A" "simple-workflow" "calculate_metrics" []
        (Value.vdict [("data_points", Value.vstr "\x7b\x7bmissing_binding\x7d\x7d")])
    , Step.task "B" "simple-workflow" "process_task" ["A"]
        (Value.vdict [("task_id", Value.vstr "b"), ("task_data", Value.vnull)])
    , Step.task "C" "simple-workflow" "process_task" ["B"]
        (Value.vdict [("task_id", Value.vstr "c"), ("task_data", Value.vnull)]) ] }

/-- The chain run, triggered with empty parameters. -/
def chainRun : RunState := startRun chain_abc []

/-! ## Transitive dependence and engine invariants -/

/-- Step `b` transitively depends on step `a` (by name) in a definition:
there is a chain of declared dependency edges from `a` down to `b`. -/
inductive DependsOn (fd : FlowDefinition) : String → String → Prop
  | step {a : String} {s : Step} :
      s ∈ fd.steps → a ∈ s.dependencies → DependsOn fd a s.name
  | tail {a b : String} {s : Step} :
      DependsOn fd a b → s ∈ fd.steps → b ∈ s.dependencies → DependsOn fd a s.name

/-- An error cause recorded where a failure originated (not propagated). -/
def OriginalErr : ErrCause → Prop
  | ErrCause.upstreamFailure _ => False
  | _ => True

/-- Every declared dependency of `s` has succeeded (propositional form). -/
def DepsSucceededF (states : String → StepState) (s : Step) : Prop :=
  ∀ d ∈ s.dependencies, (states d).status = StepStatus.Succeeded

/-- Invariant maintained by the engine on every reachable run state. -/
structure Inv (st : RunState) : Prop where
  statuses : ∀ n, (st.states n).status = StepStatus.Pending
      ∨ (st.states n).status = StepStatus.Suspended
      ∨ (st.states n).status = StepStatus.Succeeded
      ∨ (st.states n).status = StepStatus.Failed
  depsOk : ∀ s ∈ st.fd.steps,
      ((st.states s.name).status = StepStatus.Suspended
        ∨ (st.states s.name).status = StepStatus.Succeeded
        ∨ ((st.states s.name).status = StepStatus.Failed
            ∧ ∃ e, (st.states s.name).error = some e ∧ OriginalErr e)) →
      DepsSucceededF st.states s
  errOk : ∀ n, (st.states n).status = StepStatus.Failed →
      ∃ e, (st.states n).error = some e
  upOk : ∀ n r, (st.states n).error = some (ErrCause.upstreamFailure r) →
      (st.states n).status = StepStatus.Failed
      ∧ (st.states r).status = StepStatus.Failed
      ∧ (∃ e, (st.states r).error = some e ∧ OriginalErr e)
      ∧ DependsOn st.fd r n
  traceOk : ∀ e ∈ st.trace,
      ∃ t, t ∈ st.fd.steps ∧ Step.name t = e.1 ∧ DepsSucceededF st.states t

/-- Run states observable from outside: the state right after a trigger,
and after any sequence of signal and timer deliveries. -/
inductive Reach (fd : FlowDefinition) : RunState → Prop
  | start (params : List (String × Value)) : Reach fd (startRun fd params)
  | signal (sig : String) (payload : Value) (st : RunState) :
      Reach fd st → Reach fd (deliverSignal sig payload st)
  | timer (key : String) (st : RunState) :
      Reach fd st → Reach fd (deliverTimer key st)

/-- Number of steps of the definition still Pending. -/
def pendingCount (st : RunState) : Nat :=
  st.fd.steps.countP fun s => (st.states s.name).status == StepStatus.Pending

/-! ## Claim theorems -/

/-- C1: the simple_sequence run triggered with id "x1", type "order",
task_id "t1" invokes `validate_input` with the resolved input mapping
(id "x1", type "order") and no rules argument (so the defaults apply),
the validation output has valid = true and an empty errors list, the
process step then runs with task_id "t1", and the run reaches Succeeded
with both step outputs recorded. -/
theorem claim_C1 :
    simpleRun.status = RunStatus.Succeeded ∧
    simpleRun.trace =
      [ ("validate", "validate_input",
          Value.vdict [("input_data",
            Value.vdict [("id", Value.vstr "x1"), ("type", Value.vstr "order")])])
      , ("process", "process_task",
          Value.vdict [("task_id", Value.vstr "t1"),
            ("task_data", Value.vdict [("source", Value.vstr "workflow")])]) ] ∧
    outField simpleRun "validate" "valid" = some (Value.vbool true) ∧
    outField simpleRun "validate" "errors" = some (Value.vlist []) ∧
    outField simpleRun "validate" "rules_applied" = some (Value.vlist defaultRules) ∧
    (simpleRun.states "validate").output.isSome = true ∧
    (simpleRun.states "process").output.isSome = true ∧
    outField simpleRun "process" "task_id" = some (Value.vstr "t1") := by
  refine ⟨?_, ?_, ?_, ?_, ?_, ?_, ?_, ?_⟩ <;> with_unfolding_all rfl

/-- C2: in the metrics_with_signal workflow the calculate step invokes
`calculate_metrics` with data_points [1, 2, 3, 4, 5] and metric_type
"average", and the handler returns a mapping whose result field is 3 (the
arithmetic mean) with data_points_count 5. -/
theorem claim_C2 :
    calculate_metrics
      [Value.vint 1, Value.vint 2, Value.vint 3, Value.vint 4, Value.vint 5] "average" =
      Value.vdict
        [ ("metric_type", Value.vstr "average")
        , ("result", Value.vnum 3)
        , ("data_points_count", Value.vint 5)
        , ("input_data", Value.vlist
            [Value.vint 1, Value.vint 2, Value.vint 3, Value.vint 4, Value.vint 5]) ] ∧
    metricsAfterSignal.trace =
      [ ("calculate", "calculate_metrics",
          Value.vdict
            [ ("data_points", Value.vlist
                [Value.vint 1, Value.vint 2, Value.vint 3, Value.vint 4, Value.vint 5])
            , ("metric_type", Value.vstr "average") ]) ] ∧
    outField metricsAfterSignal "calculate" "result" = some (Value.vnum 3) ∧
    outField metricsAfterSignal "calculate" "data_points_count" = some (Value.vint 5) := by
  refine ⟨?_, ?_, ?_, ?_⟩ <;> with_unfolding_all rfl

/-- C6: both flow definitions built by the repository satisfy the
definition invariant (unique step names, dependencies resolving within the
definition, acyclic dependency relation), and `register` accepts both. -/
theorem claim_C6 :
    validDef simple_sequence = true ∧
    validDef metrics_with_signal = true ∧
    register [] simple_sequence = Except.ok [("simple_sequence", simple_sequence)] ∧
    register [] metrics_with_signal = Except.ok [("metrics_with_signal", metrics_with_signal)] := by
  refine ⟨?_, ?_, ?_, ?_⟩ <;> with_unfolding_all rfl

/-- C3: for every trigger of the metrics_with_signal workflow, the only
ready step right after the trigger is await_ready; the triggered run is
Suspended at await_ready, which holds a suspend token for the
metrics_ready signal while calculate and cooldown are still Pending; a
signal delivery with any other name leaves the run unchanged; delivering
metrics_ready transitions await_ready to Succeeded with the signal's
payload as its output. -/
theorem claim_C3 (params : List (String × Value)) (sig : String)
    (hsig : sig ≠ "metrics_ready") (payload payload2 : Value) :
    ready_steps metrics_with_signal (fun _ => initStepState)
      = [Step.waitSignal "await_ready" "metrics_ready" []] ∧
    (startRun metrics_with_signal params).status = RunStatus.Suspended ∧
    ((startRun metrics_with_signal params).states "await_ready").status
      = StepStatus.Suspended ∧
    ((startRun metrics_with_signal params).states "await_ready").suspend_token
      = some (SuspendToken.signal "metrics_ready") ∧
    ((startRun metrics_with_signal params).states "calculate").status = StepStatus.Pending ∧
    ((startRun metrics_with_signal params).states "cooldown").status = StepStatus.Pending ∧
    deliverSignal sig payload2 (startRun metrics_with_signal params)
      = startRun metrics_with_signal params ∧
    ((deliverSignal "metrics_ready" payload (startRun metrics_with_signal params)).states
      "await_ready").status = StepStatus.Succeeded ∧
    ((deliverSignal "metrics_ready" payload (startRun metrics_with_signal params)).states
      "await_ready").output = some payload := by
  have hatok : ((startRun metrics_with_signal params).states "await_ready").suspend_token
      = some (SuspendToken.signal "metrics_ready") := by with_unfolding_all rfl
  have hcalc : ((startRun metrics_with_signal params).states "calculate").status
      = StepStatus.Pending := by with_unfolding_all rfl
  have hcool : ((startRun metrics_with_signal params).states "cooldown").status
      = StepStatus.Pending := by with_unfolding_all rfl
  have hfd : (startRun metrics_with_signal params).fd = metrics_with_signal := by
    with_unfolding_all rfl
  have hfind : findSuspByToken (startRun metrics_with_signal params)
      (SuspendToken.signal sig) = none := by
    unfold findSuspByToken
    rw [hfd]
    apply List.find?_eq_none.mpr
    intro s hs
    simp only [metrics_with_signal, List.mem_cons, List.mem_singleton,
      List.not_mem_nil, or_false] at hs
    rcases hs with h | h | h <;> subst h
    · simp only [Step.name, hatok, Bool.and_eq_true, beq_iff_eq]
      intro hcontra
      exact hsig (by
        have := hcontra.2
        injection this with h2
        injection h2 with h3
        exact h3.symm)
    · simp [Step.name, hcalc]
    · simp [Step.name, hcool]
  have hnoop : deliverSignal sig payload2 (startRun metrics_with_signal params)
      = startRun metrics_with_signal params := by
    unfold deliverSignal
    rw [hfind]
  refine ⟨by with_unfolding_all rfl, by with_unfolding_all rfl, by with_unfolding_all rfl,
    hatok, hcalc, hcool, hnoop, by with_unfolding_all rfl, by with_unfolding_all rfl⟩

/-- C3 witness: the theorem instantiated at a concrete mismatching signal
name and concrete payloads. -/
theorem claim_C3_witness :
    ready_steps metrics_with_signal (fun _ => initStepState)
      = [Step.waitSignal "await_ready" "metrics_ready" []] ∧
    (startRun metrics_with_signal []).status = RunStatus.Suspended ∧
    ((startRun metrics_with_signal []).states "await_ready").status
      = StepStatus.Suspended ∧
    ((startRun metrics_with_signal []).states "await_ready").suspend_token
      = some (SuspendToken.signal "metrics_ready") ∧
    ((startRun metrics_with_signal []).states "calculate").status = StepStatus.Pending ∧
    ((startRun metrics_with_signal []).states "cooldown").status = StepStatus.Pending ∧
    deliverSignal "other_signal" (Value.vbool false) (startRun metrics_with_signal [])
      = startRun metrics_with_signal [] ∧
    ((deliverSignal "metrics_ready" sigPayload (startRun metrics_with_signal [])).states
      "await_ready").status = StepStatus.Succeeded ∧
    ((deliverSignal "metrics_ready" sigPayload (startRun metrics_with_signal [])).states
      "await_ready").output = some sigPayload :=
  claim_C3 [] "other_signal" (by decide) sigPayload (Value.vbool false)

/-- C4: for every flow definition and every step-state map, `ready_steps`
returns exactly the steps whose status is Pending and whose entire
dependency set has status Succeeded — so it never returns a step with an
unsatisfied dependency — and the returned list is a sublist of the
declaration order, hence deterministic and declaration-order stable. -/
theorem claim_C4 (fd : FlowDefinition) (states : String → StepState) :
    (∀ s, s ∈ ready_steps fd states ↔
      s ∈ fd.steps ∧ (states s.name).status = StepStatus.Pending ∧
        ∀ d ∈ s.dependencies, (states d).status = StepStatus.Succeeded) ∧
    List.Sublist (ready_steps fd states) fd.steps := by
  constructor
  · intro s
    simp [ready_steps, List.mem_filter, List.all_eq_true, and_assoc]
  · exact List.filter_sublist _

/-- C7: a timer-fire delivery that matches no suspended step's token is a
no-op on the whole run state; in particular, after the metrics run has
completed, the cooldown step (timer key metrics_cooldown) is Succeeded and
a duplicate fire of that timer leaves the run unchanged. -/
theorem claim_C7 :
    (∀ (key : String) (st : RunState),
      findSuspByToken st (SuspendToken.timer key) = none → deliverTimer key st = st) ∧
    (metricsDone.states "cooldown").status = StepStatus.Succeeded ∧
    metricsDone.status = RunStatus.Succeeded ∧
    deliverTimer "metrics_cooldown" metricsDone = metricsDone := by
  have hgen : ∀ (key : String) (st : RunState),
      findSuspByToken st (SuspendToken.timer key) = none → deliverTimer key st = st := by
    intro key st h
    unfold deliverTimer
    rw [h]
  exact ⟨hgen, by with_unfolding_all rfl, by with_unfolding_all rfl,
    hgen "metrics_cooldown" metricsDone (by with_unfolding_all rfl)⟩

/-- C7 witness: the general no-op statement applied to the completed
metrics run and the metrics_cooldown key. -/
theorem claim_C7_witness : deliverTimer "metrics_cooldown" metricsDone = metricsDone :=
  claim_C7.1 "metrics_cooldown" metricsDone (by with_unfolding_all rfl)

/-- C8: template resolution is a pure, deterministic function: in this
embedding `resolve` threads no state, and two calls with identical
arguments yield identical outputs. -/
theorem claim_C8 (v : Value) (b1 b2 : List (String × Value)) (h : b1 = b2) :
    resolve b1 v = resolve b2 v := by
  subst h
  rfl

/-- C8 witness: determinism at a concrete template and bindings. -/
theorem claim_C8_witness :
    resolve [("id", Value.vstr "x1")] (Value.vstr "\x7b\x7bid\x7d\x7d")
      = resolve [("id", Value.vstr "x1")] (Value.vstr "\x7b\x7bid\x7d\x7d") :=
  claim_C8 (Value.vstr "\x7b\x7bid\x7d\x7d") [("id", Value.vstr "x1")]
    [("id", Value.vstr "x1")] rfl

/-- C10: the mapping returned by validate_input has valid = true exactly
when its errors list is empty — warnings never make the result invalid —
and when rules is None the defaults required_fields, data_types are
applied and reported as rules_applied. -/
theorem claim_C10 (input_data : List (String × Value)) (rules? : Option (List Value)) :
    (∃ kvs errs warns,
      validate_input input_data rules? = Value.vdict kvs ∧
      alookup kvs "valid" = some (Value.vbool errs.isEmpty) ∧
      alookup kvs "errors" = some (Value.vlist errs) ∧
      alookup kvs "warnings" = some (Value.vlist warns) ∧
      ((alookup kvs "valid" = some (Value.vbool true)) ↔ errs = [])) ∧
    (rules? = none →
      ∃ kvs, validate_input input_data rules? = Value.vdict kvs ∧
        alookup kvs "rules_applied" = some (Value.vlist defaultRules)) := by
  constructor
  · refine ⟨_, vErrors input_data (rules?.getD defaultRules),
      vWarnings input_data (rules?.getD defaultRules), rfl, ?_, ?_, ?_, ?_⟩
    · simp [alookup]
    · simp [alookup]
    · simp [alookup]
    · simp [alookup, List.isEmpty_iff]
  · intro h
    subst h
    refine ⟨_, rfl, ?_⟩
    simp [alookup, Option.getD]

/-- C10 witness: the theorem instantiated at a concrete mapping with a
non-numeric value field and no rules argument. -/
theorem claim_C10_witness :
    ∃ kvs,
      validate_input [("id", Value.vstr "a"), ("value", Value.vstr "oops")] none
        = Value.vdict kvs ∧
      alookup kvs "rules_applied" = some (Value.vlist defaultRules) :=
  (claim_C10 [("id", Value.vstr "a"), ("value", Value.vstr "oops")] none).2 rfl

/-- C9: calculate_metrics is total (in this embedding no exception can
escape), always returns a mapping whose metric_type field echoes the
argument, and on empty data, on a conversion failure, or on an unknown
metric type it returns result None together with a non-empty error
message. -/
theorem claim_C9 (dps : List Value) (mt : String) :
    (∃ kvs, calculate_metrics dps mt = Value.vdict kvs) ∧
    dictField (calculate_metrics dps mt) "metric_type" = some (Value.vstr mt) ∧
    (dps = [] →
      dictField (calculate_metrics dps mt) "result" = some Value.vnull ∧
      ∃ m, dictField (calculate_metrics dps mt) "error" = some (Value.vstr m) ∧ 0 < m.length) ∧
    (dps.mapM pyFloat = none →
      dictField (calculate_metrics dps mt) "result" = some Value.vnull ∧
      ∃ m, dictField (calculate_metrics dps mt) "error" = some (Value.vstr m) ∧ 0 < m.length) ∧
    (mt ≠ "average" → mt ≠ "sum" → mt ≠ "min" → mt ≠ "max" →
      dictField (calculate_metrics dps mt) "result" = some Value.vnull ∧
      ∃ m, dictField (calculate_metrics dps mt) "error" = some (Value.vstr m) ∧ 0 < m.length) := by
  have hunk : 0 < ("Unknown metric type: " ++ mt).length := by
    rw [String.length_append]
    have h21 : ("Unknown metric type: ").length = 21 := by decide
    omega
  have hdict : ∃ kvs, calculate_metrics dps mt = Value.vdict kvs := by
    unfold calculate_metrics
    repeat' split
    all_goals exact ⟨_, rfl⟩
  refine ⟨hdict, ?_, ?_, ?_, ?_⟩
  · unfold calculate_metrics
    repeat' split
    all_goals simp [dictField, alookup]
  · intro hnil
    subst hnil
    refine ⟨by simp [calculate_metrics, dictField, alookup],
      "No data points provided", by simp [calculate_metrics, dictField, alookup], by decide⟩
  · intro hm
    have hne : dps ≠ [] := by
      intro h
      subst h
      simp [List.mapM.loop] at hm
    have hE : dps.isEmpty = false := by
      cases dps with
      | nil => exact absurd rfl hne
      | cons a l => rfl
    simp only [List.mapM] at hm
    refine ⟨by simp [calculate_metrics, List.mapM, hE, hm, dictField, alookup],
      "Invalid data: could not convert value to float",
      by simp [calculate_metrics, List.mapM, hE, hm, dictField, alookup], by decide⟩
  · intro h1 h2 h3 h4
    by_cases hE : dps.isEmpty = true
    · have hnil : dps = [] := by
        cases dps with
        | nil => rfl
        | cons a l => simp [List.isEmpty] at hE
      subst hnil
      refine ⟨by simp [calculate_metrics, dictField, alookup],
        "No data points provided", by simp [calculate_metrics, dictField, alookup], by decide⟩
    · rw [Bool.not_eq_true] at hE
      cases hM : List.mapM.loop pyFloat dps [] with
      | none =>
          refine ⟨by simp [calculate_metrics, List.mapM, hE, hM, dictField, alookup],
            "Invalid data: could not convert value to float",
            by simp [calculate_metrics, List.mapM, hE, hM, dictField, alookup], by decide⟩
      | some ns =>
          refine ⟨by simp [calculate_metrics, List.mapM, hE, hM, h1, h2, h3, h4, dictField, alookup],
            "Unknown metric type: " ++ mt,
            by simp [calculate_metrics, List.mapM, hE, hM, h1, h2, h3, h4, dictField, alookup], hunk⟩

/-- C9 witness: the interesting error branches exercised at concrete
inputs: empty data, an unconvertible data point, and an unknown metric
type. -/
theorem claim_C9_witness :
    (dictField (calculate_metrics [] "average") "result" = some Value.vnull ∧
      ∃ m, dictField (calculate_metrics [] "average") "error" = some (Value.vstr m)
        ∧ 0 < m.length) ∧
    (dictField (calculate_metrics [Value.vnull] "average") "result" = some Value.vnull ∧
      ∃ m, dictField (calculate_metrics [Value.vnull] "average") "error" = some (Value.vstr m)
        ∧ 0 < m.length) ∧
    (dictField (calculate_metrics [Value.vint 1] "median") "result" = some Value.vnull ∧
      ∃ m, dictField (calculate_metrics [Value.vint 1] "median") "error" = some (Value.vstr m)
        ∧ 0 < m.length) :=
  ⟨(claim_C9 [] "average").2.2.1 rfl,
   (claim_C9 [Value.vnull] "average").2.2.2.1 (by with_unfolding_all rfl),
   (claim_C9 [Value.vint 1] "median").2.2.2.2 (by decide) (by decide) (by decide) (by decide)⟩

/-! ## Helper lemmas for the failure-propagation development -/

/-- Updating a state map reads back the new value at the updated name. -/
theorem upd_self (f : String → StepState) (n : String) (v : StepState) : upd f n v n = v := by
  simp [upd]

/-- Updating a state map leaves every other name unchanged. -/
theorem upd_ne (f : String → StepState) (n : String) (v : StepState) (m : String)
    (h : m ≠ n) : upd f n v m = f m := by
  simp [upd, h]

/-- Boolean and propositional forms of a failed dependency agree. -/
theorem depFailed_iff (states : String → StepState) (s : Step) :
    depFailed states s = true ↔
      ∃ d ∈ s.dependencies, (states d).status = StepStatus.Failed := by
  simp [depFailed, List.any_eq_true]

/-- Boolean and propositional forms of satisfied dependencies agree. -/
theorem depsSucceeded_iff (states : String → StepState) (s : Step) :
    depsSucceeded states s = true ↔ DepsSucceededF states s := by
  simp [depsSucceeded, DepsSucceededF, List.all_eq_true]

/-- Characterization of a processable step. -/
theorem processableP_iff (states : String → StepState) (s : Step) :
    processableP states s = true ↔
      (states s.name).status = StepStatus.Pending ∧
        (depFailed states s = true ∨ depsSucceeded states s = true) := by
  simp [processableP, Bool.and_eq_true, Bool.or_eq_true]

/-- Acting on a step does not change the definition of the run. -/
theorem processStep_fd (s : Step) (st : RunState) : (processStep s st).fd = st.fd := rfl

/-- State map after acting on a step. -/
theorem processStep_states (s : Step) (st : RunState) :
    (processStep s st).states = upd st.states s.name (stepOutcome st.bindings st.states s).1 :=
  rfl

/-- Trace after acting on a step. -/
theorem processStep_trace (s : Step) (st : RunState) :
    (processStep s st).trace = st.trace ++ (stepOutcome st.bindings st.states s).2.2 := rfl

/-- The engine loop does not change the definition of the run. -/
theorem advance_fd (fuel : Nat) (st : RunState) : (advance fuel st).fd = st.fd := by
  induction fuel generalizing st with
  | zero => rfl
  | succ n ih =>
      unfold advance
      cases findProcessable st with
      | none => rfl
      | some s => rw [ih, processStep_fd]

/-- Settling does not change the definition of the run. -/
theorem settle_fd (st : RunState) : (settle st).fd = st.fd := by
  unfold settle
  exact advance_fd _ _

/-- Possible outcomes of acting on one step. -/
theorem stepOutcome_shape (b : List (String × Value)) (states : String → StepState)
    (s : Step) :
    (depFailed states s = true ∧
      (stepOutcome b states s).1.status = StepStatus.Failed ∧
      (stepOutcome b states s).1.error
        = some (ErrCause.upstreamFailure (failOrigin states s)) ∧
      (stepOutcome b states s).2.2 = []) ∨
    (depFailed states s = false ∧
      (((stepOutcome b states s).1.status = StepStatus.Suspended ∧
          (stepOutcome b states s).1.error = none ∧
          (stepOutcome b states s).2.2 = []) ∨
        ((stepOutcome b states s).1.status = StepStatus.Succeeded ∧
          (stepOutcome b states s).1.error = none ∧
          ∀ e ∈ (stepOutcome b states s).2.2, e.1 = s.name) ∨
        ((stepOutcome b states s).1.status = StepStatus.Failed ∧
          (∃ e, (stepOutcome b states s).1.error = some e ∧ OriginalErr e) ∧
          ∀ e ∈ (stepOutcome b states s).2.2, e.1 = s.name))) := by
  by_cases h : depFailed states s = true
  · left
    refine ⟨h, ?_, ?_, ?_⟩ <;> simp [stepOutcome, h]
  · right
    rw [Bool.not_eq_true] at h
    refine ⟨h, ?_⟩
    cases s with
    | task n svc hd deps input =>
        cases hres : resolve b input with
        | error i =>
            right; right
            refine ⟨?_, ⟨ErrCause.unresolvedTemplate i, ?_, trivial⟩, ?_⟩ <;>
              simp [stepOutcome, h, hres]
        | ok rin =>
            cases hcall : invokeHandler svc hd ctx0 rin with
            | ok out =>
                right; left
                refine ⟨?_, ?_, ?_⟩ <;> simp [stepOutcome, h, hres, hcall, Step.name]
            | error m =>
                right; right
                refine ⟨?_, ⟨ErrCause.handlerFailure m, ?_, trivial⟩, ?_⟩ <;>
                  simp [stepOutcome, h, hres, hcall, Step.name]
    | waitSignal n sig deps =>
        left
        refine ⟨?_, ?_, ?_⟩ <;> simp [stepOutcome, h]
    | waitTimer n key deps delay =>
        left
        refine ⟨?_, ?_, ?_⟩ <;> simp [stepOutcome, h]

/-- Acting on a step never leaves it Pending. -/
theorem stepOutcome_status_ne_pending (b : List (String × Value))
    (states : String → StepState) (s : Step) :
    (stepOutcome b states s).1.status ≠ StepStatus.Pending := by
  rcases stepOutcome_shape b states s with
      ⟨_, h, _, _⟩ | ⟨_, ⟨h, _, _⟩ | ⟨h, _, _⟩ | ⟨h, _, _⟩⟩ <;>
    rw [h] <;> intro hc <;> cases hc

/-- Distinct steps of a definition with no duplicate names have distinct
names. -/
theorem nodup_map_inj {l : List Step} (h : (l.map Step.name).Nodup) :
    ∀ s ∈ l, ∀ t ∈ l, Step.name s = Step.name t → s = t := by
  induction l with
  | nil => intro s hs; cases hs
  | cons a l ih =>
      rw [List.map_cons, List.nodup_cons] at h
      intro s hs t ht hname
      rcases List.mem_cons.mp hs with rfl | hs2
      · rcases List.mem_cons.mp ht with rfl | ht2
        · rfl
        · exact absurd (hname ▸ List.mem_map_of_mem Step.name ht2) h.1
      · rcases List.mem_cons.mp ht with rfl | ht2
        · exact absurd (hname ▸ List.mem_map_of_mem Step.name hs2) h.1
        · exact ih h.2 s hs2 t ht2 hname

/-- The origin named by a propagated failure is a genuinely failed step
with an original (non-propagated) error cause, on which the doomed step
transitively depends. -/
theorem failOrigin_spec (st : RunState) (hinv : Inv st) (s : Step) (hs : s ∈ st.fd.steps)
    (hdf : depFailed st.states s = true) :
    (st.states (failOrigin st.states s)).status = StepStatus.Failed ∧
    (∃ e, (st.states (failOrigin st.states s)).error = some e ∧ OriginalErr e) ∧
    DependsOn st.fd (failOrigin st.states s) s.name := by
  have hex : ∃ d, s.dependencies.find?
      (fun d => (st.states d).status == StepStatus.Failed) = some d := by
    rw [← Option.isSome_iff_exists, List.find?_isSome]
    obtain ⟨d, hd, hfail⟩ := (depFailed_iff _ _).mp hdf
    exact ⟨d, hd, by simp [hfail]⟩
  obtain ⟨d, hd⟩ := hex
  have hdmem : d ∈ s.dependencies := List.mem_of_find?_eq_some hd
  have hdfail : (st.states d).status = StepStatus.Failed := by
    have := List.find?_some hd
    simpa using this
  obtain ⟨e, he⟩ := hinv.errOk d hdfail
  cases e with
  | upstreamFailure r =>
      have hfo : failOrigin st.states s = r := by
        unfold failOrigin
        rw [hd]
        simp [he]
      rw [hfo]
      obtain ⟨hnf, hrf, hre, hdep⟩ := hinv.upOk d r he
      exact ⟨hrf, hre, DependsOn.tail hdep hs hdmem⟩
  | handlerFailure m =>
      have hfo : failOrigin st.states s = d := by
        unfold failOrigin
        rw [hd]
        simp [he]
      rw [hfo]
      exact ⟨hdfail, ⟨ErrCause.handlerFailure m, he, trivial⟩, DependsOn.step hs hdmem⟩
  | unresolvedTemplate i =>
      have hfo : failOrigin st.states s = d := by
        unfold failOrigin
        rw [hd]
        simp [he]
      rw [hfo]
      exact ⟨hdfail, ⟨ErrCause.unresolvedTemplate i, he, trivial⟩, DependsOn.step hs hdmem⟩

/-- Master preservation lemma: overwriting the state of one Pending or
Suspended step (and possibly extending bindings and trace) preserves the
engine invariant, provided the new step state satisfies the local
conditions established by the executor. -/
theorem inv_preserve (st st2 : RunState) (hinv : Inv st)
    (hfd : st2.fd = st.fd)
    (s : Step) (hs : s ∈ st.fd.steps)
    (hpend : (st.states s.name).status = StepStatus.Pending
      ∨ (st.states s.name).status = StepStatus.Suspended)
    (ns : StepState)
    (hstates : st2.states = upd st.states s.name ns)
    (nt : List (String × String × Value))
    (htrace : st2.trace = st.trace ++ nt)
    (hu : (namesOf st.fd).Nodup)
    (hstat : ns.status = StepStatus.Suspended ∨ ns.status = StepStatus.Succeeded
      ∨ ns.status = StepStatus.Failed)
    (hdeps : (ns.status = StepStatus.Suspended ∨ ns.status = StepStatus.Succeeded ∨
        (ns.status = StepStatus.Failed ∧ ∃ e, ns.error = some e ∧ OriginalErr e)) →
      DepsSucceededF st.states s)
    (herr : ns.status = StepStatus.Failed → ∃ e, ns.error = some e)
    (hup : ∀ r, ns.error = some (ErrCause.upstreamFailure r) →
      ns.status = StepStatus.Failed ∧ (st.states r).status = StepStatus.Failed ∧
      (∃ e2, (st.states r).error = some e2 ∧ OriginalErr e2) ∧ DependsOn st.fd r s.name)
    (htr : ∀ e ∈ nt, e.1 = s.name ∧ DepsSucceededF st.states s) :
    Inv st2 := by
  have keepS : ∀ m, (st.states m).status = StepStatus.Succeeded → st2.states m = st.states m := by
    intro m hm
    rw [hstates]
    apply upd_ne
    intro hmn
    rw [hmn] at hm
    rcases hpend with h | h <;> rw [hm] at h <;> cases h
  have keepF : ∀ m, (st.states m).status = StepStatus.Failed → st2.states m = st.states m := by
    intro m hm
    rw [hstates]
    apply upd_ne
    intro hmn
    rw [hmn] at hm
    rcases hpend with h | h <;> rw [hm] at h <;> cases h
  have liftDeps : ∀ t : Step, DepsSucceededF st.states t → DepsSucceededF st2.states t := by
    intro t hds d hd
    rw [keepS d (hds d hd)]
    exact hds d hd
  constructor
  · -- statuses
    intro n
    rw [hstates]
    by_cases hn : n = s.name
    · rw [hn, upd_self]
      rcases hstat with h | h | h
      · exact Or.inr (Or.inl h)
      · exact Or.inr (Or.inr (Or.inl h))
      · exact Or.inr (Or.inr (Or.inr h))
    · rw [upd_ne _ _ _ _ hn]
      exact hinv.statuses n
  · -- depsOk
    intro t ht hcond
    rw [hfd] at ht
    by_cases hn : t.name = s.name
    · have hts : t = s := nodup_map_inj hu t ht s hs hn
      subst hts
      rw [hstates, hn, upd_self] at hcond
      exact liftDeps t (hdeps hcond)
    · rw [hstates, upd_ne _ _ _ _ hn] at hcond
      exact liftDeps t (hinv.depsOk t ht hcond)
  · -- errOk
    intro n hn
    rw [hstates]
    rw [hstates] at hn
    by_cases h : n = s.name
    · rw [h, upd_self] at hn ⊢
      exact herr hn
    · rw [upd_ne _ _ _ _ h] at hn ⊢
      exact hinv.errOk n hn
  · -- upOk
    intro n r hnr
    rw [hstates] at hnr
    by_cases h : n = s.name
    · rw [h, upd_self] at hnr
      obtain ⟨h1, h2, h3, h4⟩ := hup r hnr
      refine ⟨?_, ?_, ?_, ?_⟩
      · rw [hstates, h, upd_self]; exact h1
      · rw [keepF r h2]; exact h2
      · rw [keepF r h2]; exact h3
      · rw [hfd, h]; exact h4
    · rw [upd_ne _ _ _ _ h] at hnr
      obtain ⟨h1, h2, h3, h4⟩ := hinv.upOk n r hnr
      refine ⟨?_, ?_, ?_, ?_⟩
      · rw [hstates, upd_ne _ _ _ _ h]; exact h1
      · rw [keepF r h2]; exact h2
      · rw [keepF r h2]; exact h3
      · rw [hfd]; exact h4
  · -- traceOk
    intro e he
    rw [htrace] at he
    rcases List.mem_append.mp he with hold | hnew
    · obtain ⟨t, ht, htn, hds⟩ := hinv.traceOk e hold
      exact ⟨t, by rw [hfd]; exact ht, htn, liftDeps t hds⟩
    · obtain ⟨hen, hds⟩ := htr e hnew
      exact ⟨s, by rw [hfd]; exact hs, hen.symm, liftDeps s hds⟩

/-- Acting on a processable step preserves the engine invariant. -/
theorem inv_processStep (st : RunState) (s : Step) (hu : (namesOf st.fd).Nodup)
    (hs : s ∈ st.fd.steps) (hp : processableP st.states s = true) (hinv : Inv st) :
    Inv (processStep s st) := by
  have hpend : (st.states s.name).status = StepStatus.Pending :=
    ((processableP_iff _ _).mp hp).1
  rcases stepOutcome_shape st.bindings st.states s with
      ⟨hdf, hstat, herr, htrnil⟩ | ⟨hdf, hcases⟩
  · -- a dependency failed: the step is doomed with an upstream cause
    obtain ⟨hrf, hre, hdep⟩ := failOrigin_spec st hinv s hs hdf
    refine inv_preserve st (processStep s st) hinv rfl s hs (Or.inl hpend) _
      (processStep_states s st) _ (processStep_trace s st) hu
      (Or.inr (Or.inr hstat)) ?_ (fun _ => ⟨_, herr⟩) ?_ ?_
    · intro hcond
      exfalso
      rcases hcond with h | h | ⟨hF, e, hee, hoe⟩
      · rw [hstat] at h; cases h
      · rw [hstat] at h; cases h
      · rw [herr] at hee
        injection hee with h2
        rw [← h2] at hoe
        exact hoe
    · intro r hr
      rw [herr] at hr
      injection hr with h2
      injection h2 with h3
      rw [← h3]
      exact ⟨hstat, hrf, hre, hdep⟩
    · rw [htrnil]
      intro e he
      cases he
  · -- no dependency failed: the step was ready and ran
    have hds : DepsSucceededF st.states s := by
      rcases ((processableP_iff _ _).mp hp).2 with h | h
      · rw [hdf] at h; cases h
      · exact (depsSucceeded_iff _ _).mp h
    rcases hcases with ⟨hstat, herr, htrnil⟩ | ⟨hstat, herr, htr⟩ | ⟨hstat, herr, htr⟩
    · -- suspended (wait step)
      refine inv_preserve st (processStep s st) hinv rfl s hs (Or.inl hpend) _
        (processStep_states s st) _ (processStep_trace s st) hu
        (Or.inl hstat) (fun _ => hds) ?_ ?_ ?_
      · intro h
        rw [hstat] at h; cases h
      · intro r hr
        rw [herr] at hr; cases hr
      · rw [htrnil]
        intro e he
        cases he
    · -- succeeded task
      refine inv_preserve st (processStep s st) hinv rfl s hs (Or.inl hpend) _
        (processStep_states s st) _ (processStep_trace s st) hu
        (Or.inr (Or.inl hstat)) (fun _ => hds) ?_ ?_ ?_
      · intro h
        rw [hstat] at h; cases h
      · intro r hr
        rw [herr] at hr; cases hr
      · intro e he
        exact ⟨htr e he, hds⟩
    · -- task failed on its own (handler failure or unresolved template)
      obtain ⟨e0, he0, hoe0⟩ := herr
      refine inv_preserve st (processStep s st) hinv rfl s hs (Or.inl hpend) _
        (processStep_states s st) _ (processStep_trace s st) hu
        (Or.inr (Or.inr hstat)) (fun _ => hds) (fun _ => ⟨e0, he0⟩) ?_ ?_
      · intro r hr
        rw [he0] at hr
        injection hr with h2
        rw [h2] at hoe0
        exact absurd hoe0 (by simp [OriginalErr])
      · intro e he
        exact ⟨htr e he, hds⟩

/-- The engine loop preserves the engine invariant. -/
theorem inv_advance (fuel : Nat) (st : RunState) (hu : (namesOf st.fd).Nodup)
    (hinv : Inv st) : Inv (advance fuel st) := by
  induction fuel generalizing st with
  | zero => exact hinv
  | succ n ih =>
      unfold advance
      cases hf : findProcessable st with
      | none => exact hinv
      | some s =>
          have hf2 : st.fd.steps.find? (processableP st.states) = some s := hf
          have hs : s ∈ st.fd.steps := List.mem_of_find?_eq_some hf2
          have hp : processableP st.states s = true := List.find?_some hf2
          exact ih (processStep s st) (by rw [processStep_fd]; exact hu)
            (inv_processStep st s hu hs hp hinv)

/-- Settling preserves the engine invariant. -/
theorem inv_settle (st : RunState) (hu : (namesOf st.fd).Nodup) (hinv : Inv st) :
    Inv (settle st) := by
  have h := inv_advance st.fd.steps.length st hu hinv
  exact ⟨h.statuses, h.depsOk, h.errOk, h.upOk, h.traceOk⟩

/-- The freshly created run satisfies the engine invariant. -/
theorem inv_init (fd : FlowDefinition) (params : List (String × Value)) :
    Inv { fd := fd, bindings := params, states := fun _ => initStepState
        , trace := [], status := RunStatus.Running } := by
  constructor
  · intro n
    exact Or.inl rfl
  · intro s hs hcond
    exfalso
    rcases hcond with h | h | ⟨h, _⟩ <;> cases h
  · intro n h
    cases h
  · intro n r h
    cases h
  · intro e he
    cases he

/-- Resuming one suspended step to Succeeded (as signal and timer delivery
do) and settling preserves the engine invariant. -/
theorem inv_resume (st : RunState) (hu : (namesOf st.fd).Nodup) (hinv : Inv st)
    (s : Step) (hs : s ∈ st.fd.steps)
    (hsusp : (st.states s.name).status = StepStatus.Suspended) (out : Value) :
    Inv (settle
      { st with
        states := upd st.states s.name
          { status := StepStatus.Succeeded, output := some out
          , error := none, suspend_token := none }
      , bindings := st.bindings ++ [(s.name, out)] }) := by
  apply inv_settle
  · exact hu
  refine inv_preserve st _ hinv rfl s hs (Or.inr hsusp) _ rfl [] (by simp) hu
    (Or.inr (Or.inl rfl)) (fun _ => hinv.depsOk s hs (Or.inl hsusp)) ?_ ?_ ?_
  · intro h
    cases h
  · intro r hr
    cases hr
  · intro e he
    cases he

/-- Signal delivery preserves the engine invariant. -/
theorem inv_deliverSignal (sig : String) (payload : Value) (st : RunState)
    (hu : (namesOf st.fd).Nodup) (hinv : Inv st) : Inv (deliverSignal sig payload st) := by
  unfold deliverSignal
  cases hf : findSuspByToken st (SuspendToken.signal sig) with
  | none => exact hinv
  | some s =>
      have hf2 : st.fd.steps.find? (fun s =>
          ((st.states s.name).status == StepStatus.Suspended)
            && ((st.states s.name).suspend_token == some (SuspendToken.signal sig)))
          = some s := hf
      have hs : s ∈ st.fd.steps := List.mem_of_find?_eq_some hf2
      have hp := List.find?_some hf2
      have hsusp : (st.states s.name).status = StepStatus.Suspended := by
        rw [Bool.and_eq_true] at hp
        simpa using hp.1
      exact inv_resume st hu hinv s hs hsusp payload

/-- Timer delivery preserves the engine invariant. -/
theorem inv_deliverTimer (key : String) (st : RunState)
    (hu : (namesOf st.fd).Nodup) (hinv : Inv st) : Inv (deliverTimer key st) := by
  unfold deliverTimer
  cases hf : findSuspByToken st (SuspendToken.timer key) with
  | none => exact hinv
  | some s =>
      have hf2 : st.fd.steps.find? (fun s =>
          ((st.states s.name).status == StepStatus.Suspended)
            && ((st.states s.name).suspend_token == some (SuspendToken.timer key)))
          = some s := hf
      have hs : s ∈ st.fd.steps := List.mem_of_find?_eq_some hf2
      have hp := List.find?_some hf2
      have hsusp : (st.states s.name).status = StepStatus.Suspended := by
        rw [Bool.and_eq_true] at hp
        simpa using hp.1
      exact inv_resume st hu hinv s hs hsusp (Value.vdict [])

/-- Signal delivery does not change the definition of the run. -/
theorem deliverSignal_fd (sig : String) (payload : Value) (st : RunState) :
    (deliverSignal sig payload st).fd = st.fd := by
  unfold deliverSignal
  cases findSuspByToken st (SuspendToken.signal sig) with
  | none => rfl
  | some s => rw [settle_fd]

/-- Timer delivery does not change the definition of the run. -/
theorem deliverTimer_fd (key : String) (st : RunState) :
    (deliverTimer key st).fd = st.fd := by
  unfold deliverTimer
  cases findSuspByToken st (SuspendToken.timer key) with
  | none => rfl
  | some s => rw [settle_fd]

/-- Every reachable state of a flow carries that flow's definition. -/
theorem reach_fd (fd : FlowDefinition) (st : RunState) (h : Reach fd st) : st.fd = fd := by
  induction h with
  | start params =>
      unfold startRun
      rw [settle_fd]
  | signal sig payload st2 h2 ih =>
      rw [deliverSignal_fd]
      exact ih
  | timer key st2 h2 ih =>
      rw [deliverTimer_fd]
      exact ih

/-- Every reachable state of a flow with unique step names satisfies the
engine invariant. -/
theorem reach_inv (fd : FlowDefinition) (st : RunState) (hu : (namesOf fd).Nodup)
    (h : Reach fd st) : Inv st := by
  induction h with
  | start params =>
      unfold startRun
      exact inv_settle _ hu (inv_init fd params)
  | signal sig payload st2 h2 ih =>
      have hu2 : (namesOf st2.fd).Nodup := by rw [reach_fd fd st2 h2]; exact hu
      exact inv_deliverSignal sig payload st2 hu2 ih
  | timer key st2 h2 ih =>
      have hu2 : (namesOf st2.fd).Nodup := by rw [reach_fd fd st2 h2]; exact hu
      exact inv_deliverTimer key st2 hu2 ih

/-- Counting with a pointwise smaller predicate that is strictly smaller at
one member gives a strictly smaller count. -/
theorem countP_lt_of_mem {α : Type} {p q : α → Bool} {l : List α}
    (himp : ∀ a ∈ l, q a = true → p a = true) {x : α} (hx : x ∈ l)
    (hpx : p x = true) (hqx : q x = false) : l.countP q < l.countP p := by
  induction l with
  | nil => cases hx
  | cons a l ih =>
      rw [List.countP_cons, List.countP_cons]
      have hle : l.countP q ≤ l.countP p := by
        apply List.countP_mono_left
        intro b hb
        exact himp b (List.mem_cons_of_mem a hb)
      rcases List.mem_cons.mp hx with rfl | hx2
      · rw [hpx, hqx]
        simp
        omega
      · have hlt := ih (fun b hb hq => himp b (List.mem_cons_of_mem a hb) hq) hx2
        have h2 : (if q a = true then 1 else 0) ≤ (if p a = true then 1 else 0) := by
          by_cases hqa : q a = true
          · rw [hqa, himp a (List.mem_cons_self a l) hqa]
          · simp [hqa]
        omega

/-- Acting on a processable step strictly decreases the number of Pending
steps. -/
theorem pendingCount_processStep_lt (st : RunState) (s : Step) (hs : s ∈ st.fd.steps)
    (hpend : (st.states s.name).status = StepStatus.Pending) :
    pendingCount (processStep s st) < pendingCount st := by
  unfold pendingCount
  rw [processStep_fd]
  apply countP_lt_of_mem (x := s) ?_ hs (by simp [hpend]) ?_
  · intro t ht hq
    by_cases hn : t.name = s.name
    · exfalso
      rw [processStep_states, hn, upd_self] at hq
      exact stepOutcome_status_ne_pending st.bindings st.states s (by simpa using hq)
    · rw [processStep_states, upd_ne _ _ _ _ hn] at hq
      exact hq
  · rw [processStep_states, upd_self]
    rw [beq_eq_false_iff_ne]
    exact stepOutcome_status_ne_pending st.bindings st.states s

/-- After running the loop with fuel at least the number of Pending steps,
no step is processable. -/
theorem advance_quiescent (fuel : Nat) (st : RunState) (h : pendingCount st ≤ fuel) :
    findProcessable (advance fuel st) = none := by
  induction fuel generalizing st with
  | zero =>
      unfold advance
      have hz : pendingCount st = 0 := Nat.le_zero.mp h
      unfold findProcessable
      apply List.find?_eq_none.mpr
      intro s hs hp
      have hpend := ((processableP_iff _ _).mp hp).1
      have hpos : 0 < pendingCount st := by
        unfold pendingCount
        apply List.countP_pos_iff.mpr
        exact ⟨s, hs, by simp [hpend]⟩
      omega
  | succ n ih =>
      unfold advance
      cases hf : findProcessable st with
      | none => exact hf
      | some s =>
          apply ih
          have hf2 : st.fd.steps.find? (processableP st.states) = some s := hf
          have hs := List.mem_of_find?_eq_some hf2
          have hp := List.find?_some hf2
          have hlt := pendingCount_processStep_lt st s hs ((processableP_iff _ _).mp hp).1
          omega

/-- Settling does not change which step is processable next. -/
theorem findProcessable_settle (st : RunState) :
    findProcessable (settle st) = findProcessable (advance st.fd.steps.length st) := rfl

/-- Every reachable state is quiescent: no step is still processable. -/
theorem reach_quiescent (fd : FlowDefinition) (st : RunState) (h : Reach fd st) :
    findProcessable st = none := by
  induction h with
  | start params =>
      unfold startRun
      rw [findProcessable_settle]
      apply advance_quiescent
      exact List.countP_le_length _
  | signal sig payload st2 h2 ih =>
      unfold deliverSignal
      cases hf : findSuspByToken st2 (SuspendToken.signal sig) with
      | none => exact ih
      | some s =>
          rw [findProcessable_settle]
          apply advance_quiescent
          exact List.countP_le_length _
  | timer key st2 h2 ih =>
      unfold deliverTimer
      cases hf : findSuspByToken st2 (SuspendToken.timer key) with
      | none => exact ih
      | some s =>
          rw [findProcessable_settle]
          apply advance_quiescent
          exact List.countP_le_length _

/-- In a quiescent invariant state, a step with a failed dependency is
itself Failed, carries an upstream cause naming an originally failed step
it transitively depends on, and its handler was never invoked. -/
theorem failed_dep_forces (st : RunState) (hinv : Inv st)
    (hq : findProcessable st = none) (hu : (namesOf st.fd).Nodup)
    (s : Step) (hs : s ∈ st.fd.steps) (d : String) (hd : d ∈ s.dependencies)
    (hdf : (st.states d).status = StepStatus.Failed) :
    (st.states s.name).status = StepStatus.Failed ∧
    (∃ r, (st.states s.name).error = some (ErrCause.upstreamFailure r) ∧
      (st.states r).status = StepStatus.Failed ∧
      (∃ e, (st.states r).error = some e ∧ OriginalErr e) ∧
      DependsOn st.fd r s.name) ∧
    (∀ h i, (s.name, h, i) ∉ st.trace) := by
  have hq2 : st.fd.steps.find? (processableP st.states) = none := hq
  have hnp : (st.states s.name).status ≠ StepStatus.Pending := by
    intro hpend
    have hproc : processableP st.states s = true :=
      (processableP_iff _ _).mpr
        ⟨hpend, Or.inl ((depFailed_iff _ _).mpr ⟨d, hd, hdf⟩)⟩
    exact (List.find?_eq_none.mp hq2 s hs) hproc
  have hnsusp : ¬((st.states s.name).status = StepStatus.Suspended
      ∨ (st.states s.name).status = StepStatus.Succeeded) := by
    intro h
    have hds := hinv.depsOk s hs (by
      rcases h with h | h
      exacts [Or.inl h, Or.inr (Or.inl h)])
    have hc := hds d hd
    rw [hdf] at hc
    cases hc
  have hF : (st.states s.name).status = StepStatus.Failed := by
    rcases hinv.statuses s.name with h | h | h | h
    · exact absurd h hnp
    · exact absurd (Or.inl h) hnsusp
    · exact absurd (Or.inr h) hnsusp
    · exact h
  obtain ⟨e, he⟩ := hinv.errOk s.name hF
  have hupstream : ∃ r, e = ErrCause.upstreamFailure r := by
    cases e with
    | upstreamFailure r => exact ⟨r, rfl⟩
    | handlerFailure m =>
        exfalso
        have hds := hinv.depsOk s hs (Or.inr (Or.inr ⟨hF, _, he, trivial⟩))
        have hc := hds d hd
        rw [hdf] at hc
        cases hc
    | unresolvedTemplate i =>
        exfalso
        have hds := hinv.depsOk s hs (Or.inr (Or.inr ⟨hF, _, he, trivial⟩))
        have hc := hds d hd
        rw [hdf] at hc
        cases hc
  obtain ⟨r, rfl⟩ := hupstream
  obtain ⟨hnf, hrF, hre, hdepr⟩ := hinv.upOk s.name r he
  refine ⟨hF, ⟨r, he, hrF, hre, hdepr⟩, ?_⟩
  intro hh ii hmem
  obtain ⟨t, ht, htn, hds⟩ := hinv.traceOk (s.name, hh, ii) hmem
  have hts : t = s := nodup_map_inj hu t ht s hs htn
  rw [hts] at hds
  have hc := hds d hd
  rw [hdf] at hc
  cases hc

/-- C5: on every externally observable state of a run of a flow with
unique step names, if a step named `a` is Failed then every step `b`
transitively depending on `a` is Failed, its error is an UpstreamFailure
naming a failed step with an original (non-propagated) cause on which `b`
transitively depends — in a single-failure run such as the A→B→C chain
this is the originally failed step itself — and no handler invocation for
`b` was ever recorded. -/
theorem claim_C5 (fd : FlowDefinition) (st : RunState)
    (hu : uniqNames (namesOf fd) = true) (hr : Reach fd st) (a b : String)
    (ha : (st.states a).status = StepStatus.Failed) (hdep : DependsOn fd a b) :
    (st.states b).status = StepStatus.Failed ∧
    (∃ r, (st.states b).error = some (ErrCause.upstreamFailure r) ∧
      (st.states r).status = StepStatus.Failed ∧
      (∃ e, (st.states r).error = some e ∧ OriginalErr e) ∧
      DependsOn fd r b) ∧
    (∀ h i, (b, h, i) ∉ st.trace) := by
  have hnodup : (namesOf fd).Nodup := of_decide_eq_true hu
  have hfd := reach_fd fd st hr
  have hu2 : (namesOf st.fd).Nodup := by rw [hfd]; exact hnodup
  have hinv := reach_inv fd st hnodup hr
  have hq := reach_quiescent fd st hr
  have main : ∀ s : Step, s ∈ fd.steps → ∀ d ∈ s.dependencies,
      (st.states d).status = StepStatus.Failed →
      (st.states s.name).status = StepStatus.Failed ∧
      (∃ r, (st.states s.name).error = some (ErrCause.upstreamFailure r) ∧
        (st.states r).status = StepStatus.Failed ∧
        (∃ e, (st.states r).error = some e ∧ OriginalErr e) ∧
        DependsOn fd r s.name) ∧
      (∀ h i, (s.name, h, i) ∉ st.trace) := by
    intro s hsmem d hdmem hdfail
    have hsmem2 : s ∈ st.fd.steps := by rw [hfd]; exact hsmem
    obtain ⟨h1, ⟨r, h2, h3, h4, h5⟩, h6⟩ :=
      failed_dep_forces st hinv hq hu2 s hsmem2 d hdmem hdfail
    exact ⟨h1, ⟨r, h2, h3, h4, by rw [← hfd]; exact h5⟩, h6⟩
  induction hdep with
  | step hmem hdmem => exact main _ hmem _ hdmem ha
  | tail hprev hmem hdmem ih =>
      obtain ⟨hbF, _, _⟩ := ih
      exact main _ hmem _ hdmem hbF

/-- C5 witness: in the chain A→B→C where A fails, both B and C are Failed
with cause UpstreamFailure A and no handler invocation for B or C is ever
recorded. -/
theorem claim_C5_witness :
    ((chainRun.states "B").status = StepStatus.Failed ∧
      (∀ h i, ("B", h, i) ∉ chainRun.trace)) ∧
    ((chainRun.states "C").status = StepStatus.Failed ∧
      (∀ h i, ("C", h, i) ∉ chainRun.trace)) ∧
    (chainRun.states "B").error = some (ErrCause.upstreamFailure "A") ∧
    (chainRun.states "C").error = some (ErrCause.upstreamFailure "A") ∧
    chainRun.trace = [] := by
  have hu : uniqNames (namesOf chain_abc) = true := by with_unfolding_all rfl
  have ha : (chainRun.states "A").status = StepStatus.Failed := by with_unfolding_all rfl
  have hAB : DependsOn chain_abc "A" "B" :=
    DependsOn.step (s := chain_abc.steps.get ⟨1, by simp [chain_abc]⟩)
      (by simp [chain_abc]) (by simp [chain_abc, Step.dependencies])
  have hAC : DependsOn chain_abc "A" "C" :=
    DependsOn.tail hAB (s := chain_abc.steps.get ⟨2, by simp [chain_abc]⟩)
      (by simp [chain_abc]) (by simp [chain_abc, Step.dependencies])
  have hB := claim_C5 chain_abc chainRun hu (Reach.start []) "A" "B" ha hAB
  have hC := claim_C5 chain_abc chainRun hu (Reach.start []) "A" "C" ha hAC
  exact ⟨⟨hB.1, hB.2.2⟩, ⟨hC.1, hC.2.2⟩, by with_unfolding_all rfl,
    by with_unfolding_all rfl, by with_unfolding_all rfl⟩

end FlowCore
